import Mathlib

/-!
Verification of the student CRUD application (`src/app.py`).

The application is a Flask app backed by a SQLite table `Student(id, name,
email, age)`.  We embed the database state as a list of records, ordered as a
row scan returns them (by `id`, which is the SQLite rowid), and each HTTP
handler as a function from the current state and the request data to a
rendered response together with the successor state.

Modelling notes, matching the source line by line:
* `Student.id` is the `db.Integer` primary key; SQLite assigns a fresh rowid
  `max(id) + 1` on insert (`nextId` below).
* `Student.name`/`Student.email` are `db.String` columns; `nullable=False`
  forbids NULL but not the empty string, and the handlers never pass NULL,
  so the model carries plain `String`s.
* `Student.age` is declared `db.Integer`, but `add_student` and
  `edit_student` assign `request.form['age']` — the raw form text — without
  conversion, so the value that reaches the store is the submitted string;
  the model therefore carries it as `String`.
* The `unique=True` constraint on `email` makes the `db.session.commit()`
  in `add_student` raise an `IntegrityError` when the email is already
  present; the exception is unhandled, so the request fails (modelled as
  `Response.constraintViolation`) and the row is not inserted.
* In `edit_student`, the POST branch mutates the session-attached record
  and then runs `Student.query.filter(...)`; the session's autoflush issues
  the pending UPDATE at that query, so when the submitted email belongs to a
  different row the UNIQUE constraint rejects the flush right there: the
  request dies with an unhandled `IntegrityError` (HTTP 500, modelled as
  `Response.constraintViolation`) and teardown rolls the transaction back,
  leaving the table unchanged.  When the flush succeeds, no other row can
  hold that email, so `existing` is always `None` — the
  `"Email already exists!"` branch at app.py:104-105 is dead code — and the
  commit persists the overwrite.
* `delete_student` deletes the row, commits, re-reads all remaining rows
  ordered by `id` (`sortById`), assigns `1, 2, ...` in that order
  (`renumber`), and commits again.
-/

/-- A row of the `student` table (`class Student(db.Model)` in `app.py`). -/
structure Student where
  id : Nat
  name : String
  email : String
  age : String
  deriving Repr, DecidableEq

/-- The table contents, in row-scan (rowid = `id`) order. -/
abbrev DB := List Student

/-- The three fields read from a submitted form
(`request.form['name' | 'email' | 'age']`). -/
structure Form where
  name : String
  email : String
  age : String
  deriving Repr, DecidableEq

/-- The pages/outcomes a handler can produce. -/
inductive Response where
  /-- `render_template('index.html', students=...)` -/
  | listPage (students : List Student)
  /-- `render_template('add.html')` -/
  | addForm
  /-- `render_template('edit.html', student=..., error=...)` -/
  | editForm (student : Student) (error : Option String)
  /-- `redirect(url_for('index'))` -/
  | redirectIndex
  /-- `get_or_404` fired: HTTP 404 -/
  | notFound
  /-- unhandled `IntegrityError` from the unique-email constraint (HTTP 500) -/
  | constraintViolation
  deriving Repr, DecidableEq

/-- Rowid assignment on insert: SQLite gives a new row `max(id) + 1`. -/
def nextId (s : DB) : Nat := (s.map (·.id)).foldr max 0 + 1

/-- `Student.query.get_or_404(id)` / `Student.query.get(id)`:
the row whose primary key is `id`, if any. -/
def getById (s : DB) (i : Nat) : Option Student := s.find? (·.id == i)

/-- `GET /` (`index` in `app.py`): fetch all students, render the list;
no mutation. -/
def index (s : DB) : Response × DB :=
  (.listPage s, s)

/-- `GET /add`: show the empty form; no mutation. -/
def add_student_get (s : DB) : Response × DB :=
  (.addForm, s)

/-- `POST /add` (`add_student` in `app.py`): build a `Student` from the form
fields and commit it.  If the email is already present the unique constraint
makes the commit fail (unhandled), leaving the table unchanged. -/
def add_student_post (s : DB) (form : Form) : Response × DB :=
  let new_student : Student :=
    { id := nextId s, name := form.name, email := form.email, age := form.age }
  if s.any (·.email == form.email) then
    (.constraintViolation, s)
  else
    (.redirectIndex, s ++ [new_student])

/-- `GET /edit/<id>` (`edit_student`, GET branch): 404 if absent, otherwise
show the pre-filled form; no mutation. -/
def edit_student_get (s : DB) (i : Nat) : Response × DB :=
  match getById s i with
  | none => (.notFound, s)
  | some student => (.editForm student none, s)

/-- `POST /edit/<id>` (`edit_student`, POST branch): 404 if absent; otherwise
overwrite the session-attached record with the form fields.  The uniqueness
query at app.py:99-102 autoflushes that overwrite, so when the email belongs
to a record with a different id the flush itself violates the UNIQUE
constraint and the request fails with an unhandled `IntegrityError`, rolled
back at teardown (table unchanged); the `"Email already exists!"` re-render
guarded by `if existing:` is unreachable for a real collision.  Otherwise
`existing` is `None` and the commit persists the overwrite, redirecting to
the list. -/
def edit_student_post (s : DB) (i : Nat) (form : Form) : Response × DB :=
  match getById s i with
  | none => (.notFound, s)
  | some student =>
    let updated : Student :=
      { student with name := form.name, email := form.email, age := form.age }
    if s.any (fun r => r.email == updated.email && r.id != i) then
      (.constraintViolation, s)
    else
      (.redirectIndex, s.map (fun r => if r.id == i then updated else r))

/-- `s.id = i` assignment loop: `for i, s in enumerate(students, start=1)`,
reassigning ids `k, k+1, ...` down the list. -/
def renumber (k : Nat) : List Student → List Student
  | [] => []
  | r :: rs => { r with id := k } :: renumber (k + 1) rs

/-- Ordered insertion by `id`, the auxiliary step of `sortById`. -/
def insertById (r : Student) : List Student → List Student
  | [] => [r]
  | x :: xs => if r.id ≤ x.id then r :: x :: xs else x :: insertById r xs

/-- `Student.query.order_by(Student.id).all()`: the remaining rows sorted by
ascending `id`. -/
def sortById : List Student → List Student
  | [] => []
  | x :: xs => insertById x (sortById xs)

/-- `GET /delete/<id>` (`delete_student` in `app.py`): 404 if absent;
otherwise delete the row, re-read the survivors ordered by `id`, assign ids
`1..n` in that order, and redirect. -/
def delete_student (s : DB) (i : Nat) : Response × DB :=
  match getById s i with
  | none => (.notFound, s)
  | some _ =>
    let remaining := s.filter (fun r => r.id != i)
    (.redirectIndex, renumber 1 (sortById remaining))

/-- The non-key payload of a row: everything but the reassignable `id`. -/
def payload (r : Student) : String × String × String := (r.name, r.email, r.age)

/-- A mutating request: the state-changing half of each handler. -/
inductive Op where
  | add (form : Form)
  | edit (i : Nat) (form : Form)
  | del (i : Nat)
  deriving Repr, DecidableEq

/-- The state reached after serving one mutating request. -/
def applyOp (s : DB) : Op → DB
  | .add form => (add_student_post s form).2
  | .edit i form => (edit_student_post s i form).2
  | .del i => (delete_student s i).2

/-- The state reached from the empty table after a sequence of requests. -/
def run (ops : List Op) : DB := ops.foldl applyOp []

/-- States with pairwise-distinct primary keys and pairwise-distinct
emails — the two table constraints. -/
def TableInv (s : DB) : Prop :=
  (s.map (·.id)).Nodup ∧ (s.map (·.email)).Nodup

/-- Sample store used by the witnesses below. -/
def sampleDB : DB :=
  [⟨1, "Alice", "a@x.com", "20"⟩, ⟨2, "Bob", "b@x.com", "21"⟩,
   ⟨3, "Carol", "c@x.com", "22"⟩]

/-- C4: starting from an empty store, creating ("Alice","a@x.com",20) assigns
id 1, creating ("Bob","b@x.com",21) assigns id 2, deleting id 1 renumbers Bob
to id 1, and the listing afterwards is exactly the one-element sequence
containing Bob with id 1. -/
theorem scenario_alice_bob :
    (add_student_post [] ⟨"Alice", "a@x.com", "20"⟩).2 =
      [⟨1, "Alice", "a@x.com", "20"⟩] ∧
    (add_student_post [⟨1, "Alice", "a@x.com", "20"⟩] ⟨"Bob", "b@x.com", "21"⟩).2 =
      [⟨1, "Alice", "a@x.com", "20"⟩, ⟨2, "Bob", "b@x.com", "21"⟩] ∧
    delete_student [⟨1, "Alice", "a@x.com", "20"⟩, ⟨2, "Bob", "b@x.com", "21"⟩] 1 =
      (.redirectIndex, [⟨1, "Bob", "b@x.com", "21"⟩]) ∧
    (index [⟨1, "Bob", "b@x.com", "21"⟩]).1 =
      .listPage [⟨1, "Bob", "b@x.com", "21"⟩] := by
  decide

/-- C3: creating a student whose email is already present in the store fails
with the unique-constraint violation and leaves the set of records
unchanged (no duplicate row is inserted). -/
theorem add_duplicate_email_fails (s : DB) (form : Form)
    (h : ∃ r ∈ s, r.email = form.email) :
    add_student_post s form = (.constraintViolation, s) := by
  obtain ⟨r, hr, he⟩ := h
  have hany : s.any (·.email == form.email) = true :=
    List.any_eq_true.mpr ⟨r, hr, by simp [he]⟩
  simp [add_student_post, hany]

/-- Witness for `add_duplicate_email_fails` at a concrete one-row store. -/
theorem add_duplicate_email_fails_witness :
    (∃ r ∈ [Student.mk 1 "Alice" "a@x.com" "20"], r.email = "a@x.com") ∧
    add_student_post [⟨1, "Alice", "a@x.com", "20"⟩] ⟨"Eve", "a@x.com", "30"⟩ =
      (.constraintViolation, [⟨1, "Alice", "a@x.com", "20"⟩]) :=
  ⟨⟨⟨1, "Alice", "a@x.com", "20"⟩, List.mem_singleton.mpr rfl, rfl⟩,
   add_duplicate_email_fails _ _
     ⟨⟨1, "Alice", "a@x.com", "20"⟩, List.mem_singleton.mpr rfl, rfl⟩⟩

/-- C6: requesting the edit flow (GET or POST) or the delete flow for an id
absent from the store yields the 404 response and leaves the store
unchanged. -/
theorem missing_id_not_found (s : DB) (i : Nat) (form : Form)
    (h : getById s i = none) :
    edit_student_get s i = (.notFound, s) ∧
    edit_student_post s i form = (.notFound, s) ∧
    delete_student s i = (.notFound, s) := by
  unfold edit_student_get edit_student_post delete_student
  rw [h]
  exact ⟨rfl, rfl, rfl⟩

/-- Witness for `missing_id_not_found`: id 5 in a one-row store with id 1. -/
theorem missing_id_not_found_witness :
    getById [Student.mk 1 "Alice" "a@x.com" "20"] 5 = none ∧
    edit_student_get [⟨1, "Alice", "a@x.com", "20"⟩] 5 =
      (.notFound, [⟨1, "Alice", "a@x.com", "20"⟩]) ∧
    edit_student_post [⟨1, "Alice", "a@x.com", "20"⟩] 5 ⟨"N", "n@x.com", "1"⟩ =
      (.notFound, [⟨1, "Alice", "a@x.com", "20"⟩]) ∧
    delete_student [⟨1, "Alice", "a@x.com", "20"⟩] 5 =
      (.notFound, [⟨1, "Alice", "a@x.com", "20"⟩]) :=
  ⟨rfl, missing_id_not_found _ _ ⟨"N", "n@x.com", "1"⟩ rfl⟩

/-- C9: the list handler and the edit-form handler on a GET request for an
existing id leave the store — every record's id, name, email and age —
unchanged. -/
theorem read_handlers_no_mutation (s : DB) (i : Nat) (st : Student)
    (h : getById s i = some st) :
    (index s).2 = s ∧ (edit_student_get s i).2 = s := by
  refine ⟨rfl, ?_⟩
  unfold edit_student_get
  rw [h]

/-- Witness for `read_handlers_no_mutation` at a concrete one-row store. -/
theorem read_handlers_no_mutation_witness :
    getById [Student.mk 1 "Alice" "a@x.com" "20"] 1 =
      some ⟨1, "Alice", "a@x.com", "20"⟩ ∧
    (index [Student.mk 1 "Alice" "a@x.com" "20"]).2 =
      [⟨1, "Alice", "a@x.com", "20"⟩] ∧
    (edit_student_get [Student.mk 1 "Alice" "a@x.com" "20"] 1).2 =
      [⟨1, "Alice", "a@x.com", "20"⟩] :=
  ⟨rfl, read_handlers_no_mutation _ 1 ⟨1, "Alice", "a@x.com", "20"⟩ rfl⟩

/-! ### Helper lemmas about `renumber`, `insertById`, `sortById` -/

theorem renumber_map_payload (k : Nat) (l : List Student) :
    (renumber k l).map payload = l.map payload := by
  induction l generalizing k with
  | nil => rfl
  | cons r rs ih => simp [renumber, payload, ih]

theorem renumber_map_email (k : Nat) (l : List Student) :
    (renumber k l).map (·.email) = l.map (·.email) := by
  induction l generalizing k with
  | nil => rfl
  | cons r rs ih => simp [renumber, ih]

theorem renumber_map_id (k : Nat) (l : List Student) :
    (renumber k l).map (·.id) = List.range' k l.length := by
  induction l generalizing k with
  | nil => rfl
  | cons r rs ih => simp [renumber, ih, List.range']

theorem renumber_length (k : Nat) (l : List Student) :
    (renumber k l).length = l.length := by
  induction l generalizing k with
  | nil => rfl
  | cons r rs ih => simp [renumber, ih]

theorem insertById_perm (r : Student) (l : List Student) :
    List.Perm (insertById r l) (r :: l) := by
  induction l with
  | nil => exact List.Perm.refl _
  | cons x xs ih =>
    by_cases h : r.id ≤ x.id
    · simp [insertById, h]
    · simp only [insertById, if_neg h]
      exact (List.Perm.cons x ih).trans (List.Perm.swap r x xs)

theorem sortById_perm (l : List Student) : List.Perm (sortById l) l := by
  induction l with
  | nil => exact List.Perm.refl _
  | cons x xs ih =>
    exact (insertById_perm x (sortById xs)).trans (List.Perm.cons x ih)

theorem insertById_pairwise (r : Student) (l : List Student)
    (h : List.Pairwise (fun a b => a.id ≤ b.id) l) :
    List.Pairwise (fun a b => a.id ≤ b.id) (insertById r l) := by
  induction l with
  | nil => simp [insertById]
  | cons x xs ih =>
    rcases h with _ | ⟨hx, hxs⟩
    by_cases hr : r.id ≤ x.id
    · simp only [insertById, if_pos hr]
      refine List.Pairwise.cons ?_ (List.Pairwise.cons hx hxs)
      intro a ha
      rcases List.mem_cons.mp ha with rfl | ha
      · exact hr
      · exact le_trans hr (hx a ha)
    · simp only [insertById, if_neg hr]
      refine List.Pairwise.cons ?_ (ih hxs)
      intro a ha
      rcases List.mem_cons.mp ((insertById_perm r xs).mem_iff.mp ha) with rfl | ha2
      · exact le_of_lt (Nat.lt_of_not_le hr)
      · exact hx a ha2

theorem sortById_pairwise (l : List Student) :
    List.Pairwise (fun a b => a.id ≤ b.id) (sortById l) := by
  induction l with
  | nil => simp [sortById]
  | cons x xs ih => exact insertById_pairwise x (sortById xs) ih

theorem filter_ne_id_length (s : DB) (i : Nat)
    (hnd : (s.map (·.id)).Nodup) (h : ∃ r ∈ s, r.id = i) :
    (s.filter (fun r => r.id != i)).length + 1 = s.length := by
  induction s with
  | nil => simp at h
  | cons x xs ih =>
    simp only [List.map_cons, List.nodup_cons] at hnd
    by_cases hx : x.id = i
    · have hxs : xs.filter (fun r => r.id != i) = xs := by
        refine List.filter_eq_self.mpr ?_
        intro a ha
        have : a.id ≠ i := fun hai => hnd.1 (hx ▸ hai ▸ List.mem_map_of_mem (·.id) ha)
        simpa [bne_iff_ne] using this
      simp [List.filter_cons, hx, hxs]
    · have hmem : ∃ r ∈ xs, r.id = i := by
        rcases h with ⟨r, hr, hri⟩
        rcases List.mem_cons.mp hr with rfl | hr
        · exact absurd hri hx
        · exact ⟨r, hr, hri⟩
      have hb : (x.id != i) = true := bne_iff_ne.mpr hx
      rw [List.filter_cons, if_pos hb, List.length_cons, List.length_cons,
        ← ih hnd.2 hmem]

/-- C1: for a store with pairwise-distinct ids and an id present in it, the
delete flow redirects to the list, removes the record with that id, and
reassigns the survivors' ids to the contiguous sequence `1..n` (`n` the
number of survivors) in their prior id order: the new state's payloads are
those of a permutation `l` of the survivors that is sorted by the prior ids,
its ids are exactly `1..n`, one record was removed, and the subsequent
listing renders exactly this renumbered set. -/
theorem delete_renumbers (s : DB) (i : Nat) (st : Student)
    (h : getById s i = some st) (hnd : (s.map (·.id)).Nodup) :
    (delete_student s i).1 = Response.redirectIndex ∧
    ∃ l : DB,
      List.Perm l (s.filter (fun r => r.id != i)) ∧
      List.Pairwise (fun a b => a.id ≤ b.id) l ∧
      (delete_student s i).2.map payload = l.map payload ∧
      (delete_student s i).2.map (·.id) = List.range' 1 l.length ∧
      l.length + 1 = s.length ∧
      (index (delete_student s i).2).1 = .listPage ((delete_student s i).2) := by
  have hds : delete_student s i =
      (.redirectIndex, renumber 1 (sortById (s.filter (fun r => r.id != i)))) := by
    unfold delete_student
    rw [h]
  have hsti : st.id = i := by simpa using List.find?_some h
  have hstm : st ∈ s := List.mem_of_find?_eq_some h
  refine ⟨by rw [hds], sortById (s.filter (fun r => r.id != i)),
    sortById_perm _, sortById_pairwise _, ?_, ?_, ?_, rfl⟩
  · rw [hds]
    exact renumber_map_payload 1 _
  · rw [hds]
    exact renumber_map_id 1 _
  · rw [(sortById_perm (s.filter (fun r => r.id != i))).length_eq]
    exact filter_ne_id_length s i hnd ⟨st, hstm, hsti⟩


/-- Witness for `delete_renumbers`: deleting id 2 from the three-row sample
store. -/
theorem delete_renumbers_witness :
    getById sampleDB 2 = some ⟨2, "Bob", "b@x.com", "21"⟩ ∧
    (sampleDB.map (·.id)).Nodup ∧
    ((delete_student sampleDB 2).1 = Response.redirectIndex ∧
      ∃ l : DB,
        List.Perm l (sampleDB.filter (fun r => r.id != 2)) ∧
        List.Pairwise (fun a b => a.id ≤ b.id) l ∧
        (delete_student sampleDB 2).2.map payload = l.map payload ∧
        (delete_student sampleDB 2).2.map (·.id) = List.range' 1 l.length ∧
        l.length + 1 = sampleDB.length ∧
        (index (delete_student sampleDB 2).2).1 =
          .listPage ((delete_student sampleDB 2).2)) :=
  ⟨rfl, by decide, delete_renumbers sampleDB 2 ⟨2, "Bob", "b@x.com", "21"⟩ rfl (by decide)⟩

/-! ### Helper lemmas about the edit commit (`s.map (update at id)`) -/

theorem getById_map_update (s : DB) (i : Nat) (u st : Student)
    (hu : (u.id == i) = true) (h : getById s i = some st) :
    getById (s.map (fun r => if r.id == i then u else r)) i = some u := by
  induction s with
  | nil => simp [getById] at h
  | cons x xs ih =>
    by_cases hx : (x.id == i) = true
    · rw [List.map_cons, if_pos hx]
      unfold getById
      exact List.find?_cons_of_pos _ hu
    · rw [List.map_cons, if_neg hx]
      have hx2 : (x.id == i) = false := Bool.eq_false_iff.mpr hx
      unfold getById at h ⊢
      simp only [List.find?_cons, hx2] at h ⊢
      exact ih h

theorem mem_map_update_of_ne (s : DB) (i : Nat) (u : Student) (r : Student)
    (hr : r ∈ s) (hne : r.id ≠ i) :
    r ∈ s.map (fun x => if x.id == i then u else x) := by
  have hfix : (fun x => if x.id == i then u else x) r = r := by simp [hne]
  rw [← hfix]
  exact List.mem_map_of_mem _ hr

/-- C2 (code bug, evaluated at the failing input): editing Bob (id 2) to
Alice's email does not re-render the form with "Email already exists!" — the
autoflushed UPDATE violates the unique-email constraint at the uniqueness
query itself, so the request fails with the unhandled IntegrityError
(HTTP 500) while the table is left unchanged; the error-form response the
source's own `if existing:` branch was written to produce is never
reached. -/
theorem edit_duplicate_email_crashes :
    (edit_student_post
        [⟨1, "Alice", "a@x.com", "20"⟩, ⟨2, "Bob", "b@x.com", "21"⟩] 2
        ⟨"Bobby", "a@x.com", "33"⟩ =
      (.constraintViolation,
        [⟨1, "Alice", "a@x.com", "20"⟩, ⟨2, "Bob", "b@x.com", "21"⟩])) ∧
    ∀ st : Student,
      (edit_student_post
          [⟨1, "Alice", "a@x.com", "20"⟩, ⟨2, "Bob", "b@x.com", "21"⟩] 2
          ⟨"Bobby", "a@x.com", "33"⟩).1 ≠
        .editForm st (some "Email already exists!") := by
  refine ⟨by decide, ?_⟩
  intro st h
  have h1 : (edit_student_post
      [⟨1, "Alice", "a@x.com", "20"⟩, ⟨2, "Bob", "b@x.com", "21"⟩] 2
      ⟨"Bobby", "a@x.com", "33"⟩).1 = .constraintViolation := by decide
  rw [h1] at h
  simp at h

/-- C7: an edit POST for a stored student that submits the student's own
unchanged email (with any name and age), in a store whose emails are
pairwise distinct, succeeds: the response redirects to the list, the record
is overwritten with the submitted fields, and every other record is kept. -/
theorem edit_own_email_succeeds (s : DB) (i : Nat) (form : Form) (st : Student)
    (h : getById s i = some st) (hown : form.email = st.email)
    (hem : (s.map (·.email)).Nodup) :
    (edit_student_post s i form).1 = Response.redirectIndex ∧
    getById (edit_student_post s i form).2 i =
      some ⟨i, form.name, form.email, form.age⟩ ∧
    ∀ r ∈ s, r.id ≠ i → r ∈ (edit_student_post s i form).2 := by
  have hsti : st.id = i := by simpa using List.find?_some h
  have hstm : st ∈ s := List.mem_of_find?_eq_some h
  have hany : s.any (fun r => r.email == form.email && r.id != i) = false := by
    cases hb : s.any (fun r => r.email == form.email && r.id != i) with
    | false => rfl
    | true =>
      exfalso
      obtain ⟨r, hr, hp⟩ := List.any_eq_true.mp hb
      have hre : r.email = st.email := by
        have := (Bool.and_eq_true _ _).mp hp
        simpa [hown] using this.1
      have hri : r.id ≠ i := by
        have := (Bool.and_eq_true _ _).mp hp
        simpa using this.2
      exact hri ((List.inj_on_of_nodup_map hem hr hstm hre) ▸ hsti)
  have hres : edit_student_post s i form =
      (.redirectIndex, s.map (fun r => if r.id == i then (⟨st.id, form.name, form.email, form.age⟩ : Student) else r)) := by
    unfold edit_student_post
    rw [h]
    simp only [hany]
    rfl
  rw [hsti] at hres
  refine ⟨by rw [hres], ?_, ?_⟩
  · rw [hres]
    exact getById_map_update s i _ st (by simp) h
  · intro r hr hne
    rw [hres]
    exact mem_map_update_of_ne s i _ r hr hne

/-- Witness for `edit_own_email_succeeds`: renaming Bob (id 2) while keeping
his email in the three-row sample store. -/
theorem edit_own_email_succeeds_witness :
    getById sampleDB 2 = some ⟨2, "Bob", "b@x.com", "21"⟩ ∧
    ("b@x.com" : String) = (Student.mk 2 "Bob" "b@x.com" "21").email ∧
    (sampleDB.map (·.email)).Nodup ∧
    ((edit_student_post sampleDB 2 ⟨"Robert", "b@x.com", "22"⟩).1 =
        Response.redirectIndex ∧
      getById (edit_student_post sampleDB 2 ⟨"Robert", "b@x.com", "22"⟩).2 2 =
        some ⟨2, "Robert", "b@x.com", "22"⟩ ∧
      ∀ r ∈ sampleDB, r.id ≠ 2 →
        r ∈ (edit_student_post sampleDB 2 ⟨"Robert", "b@x.com", "22"⟩).2) :=
  ⟨rfl, rfl, by decide,
   edit_own_email_succeeds sampleDB 2 ⟨"Robert", "b@x.com", "22"⟩
     ⟨2, "Bob", "b@x.com", "21"⟩ rfl rfl (by decide)⟩

/-! ### The email-uniqueness invariant (C5) -/

theorem le_foldr_max (l : List Nat) : ∀ a ∈ l, a ≤ l.foldr max 0 := by
  induction l with
  | nil => intro a ha; simp at ha
  | cons x xs ih =>
    intro a ha
    rcases List.mem_cons.mp ha with rfl | ha
    · exact le_max_left a (List.foldr max 0 xs)
    · exact le_trans (ih a ha) (le_max_right x (List.foldr max 0 xs))

theorem nextId_not_mem (s : DB) : nextId s ∉ s.map (·.id) := by
  intro hmem
  have h2 := le_foldr_max (s.map (·.id)) (nextId s) hmem
  unfold nextId at h2
  omega

theorem nodup_append_one {α : Type} (l : List α) (a : α) (h : l.Nodup)
    (ha : a ∉ l) : (l ++ [a]).Nodup := by
  induction l with
  | nil => simp
  | cons x xs ih =>
    rw [List.cons_append, List.nodup_cons]
    refine ⟨?_, ih (List.nodup_cons.mp h).2
      (fun hm => ha (List.mem_cons_of_mem x hm))⟩
    intro hmem
    rcases List.mem_append.mp hmem with hm | hm
    · exact (List.nodup_cons.mp h).1 hm
    · rcases List.mem_singleton.mp hm with rfl
      exact ha (List.mem_cons_self _ _)

theorem map_update_no_match (xs : List Student) (i : Nat) (u : Student)
    (h : ∀ r ∈ xs, (r.id == i) = false) :
    xs.map (fun r => if r.id == i then u else r) = xs := by
  induction xs with
  | nil => rfl
  | cons x xs ih =>
    rw [List.map_cons, if_neg (Bool.eq_false_iff.mp (h x (List.mem_cons_self _ _))),
      ih (fun r hr => h r (List.mem_cons_of_mem _ hr))]

theorem map_update_ids (s : DB) (i : Nat) (u : Student) (hu : u.id = i) :
    (s.map (fun r => if r.id == i then u else r)).map (·.id) =
      s.map (·.id) := by
  induction s with
  | nil => rfl
  | cons x xs ih =>
    by_cases hx : (x.id == i) = true
    · rw [List.map_cons, if_pos hx, List.map_cons, ih, List.map_cons, hu,
        show x.id = i from by simpa using hx]
    · rw [List.map_cons, if_neg hx, List.map_cons, ih, List.map_cons]

theorem map_update_emails_nodup (s : DB) (i : Nat) (u : Student)
    (hids : (s.map (·.id)).Nodup) (hem : (s.map (·.email)).Nodup)
    (hch : ∀ r ∈ s, r.id ≠ i → r.email ≠ u.email) :
    ((s.map (fun r => if r.id == i then u else r)).map (·.email)).Nodup := by
  induction s with
  | nil => simp
  | cons x xs ih =>
    rw [List.map_cons, List.nodup_cons] at hids hem
    obtain ⟨hid1, hids2⟩ := hids
    obtain ⟨hem1, hem2⟩ := hem
    by_cases hx : (x.id == i) = true
    · have hxi : x.id = i := by simpa using hx
      have hnomatch : ∀ r ∈ xs, (r.id == i) = false := by
        intro r hr
        apply Bool.eq_false_iff.mpr
        intro hbe
        have hri : r.id = i := by simpa using hbe
        have hmem : r.id ∈ xs.map (·.id) := List.mem_map_of_mem _ hr
        rw [hri] at hmem
        rw [hxi] at hid1
        exact hid1 hmem
      rw [List.map_cons, if_pos hx, map_update_no_match xs i u hnomatch,
        List.map_cons, List.nodup_cons]
      refine ⟨?_, hem2⟩
      intro hm
      obtain ⟨r, hr, hre⟩ := List.mem_map.mp hm
      have hrid : (r.id == i) = false := hnomatch r hr
      exact hch r (List.mem_cons_of_mem _ hr) (by simpa using hrid) hre
    · rw [List.map_cons, if_neg hx, List.map_cons, List.nodup_cons]
      refine ⟨?_, ih hids2 hem2
        (fun r hr hri => hch r (List.mem_cons_of_mem _ hr) hri)⟩
      intro hm
      obtain ⟨r2, hr2, hre2⟩ := List.mem_map.mp hm
      obtain ⟨r, hr, hfr⟩ := List.mem_map.mp hr2
      by_cases hri : (r.id == i) = true
      · rw [if_pos hri] at hfr
        have hxid : x.id ≠ i := by
          intro hxe
          exact hx (by simpa using hxe)
        exact hch x (List.mem_cons_self _ _) hxid (by rw [← hre2, hfr])
      · rw [if_neg hri] at hfr
        apply hem1
        rw [← hre2, ← hfr]
        exact List.mem_map_of_mem _ hr

theorem add_inv (s : DB) (form : Form) (h : TableInv s) :
    TableInv (add_student_post s form).2 := by
  cases hc : s.any (·.email == form.email) with
  | true =>
    have hres : (add_student_post s form).2 = s := by
      unfold add_student_post
      simp [hc]
    rw [hres]
    exact h
  | false =>
    have hres : (add_student_post s form).2 =
        s ++ [⟨nextId s, form.name, form.email, form.age⟩] := by
      unfold add_student_post
      simp [hc]
    rw [hres]
    refine ⟨?_, ?_⟩
    · rw [List.map_append]
      exact nodup_append_one _ _ h.1 (nextId_not_mem s)
    · rw [List.map_append]
      refine nodup_append_one _ _ h.2 ?_
      intro hm
      obtain ⟨r, hr, hre⟩ := List.mem_map.mp hm
      have hco : s.any (·.email == form.email) = true :=
        List.any_eq_true.mpr ⟨r, hr, by simp [hre]⟩
      rw [hc] at hco
      simp at hco

theorem edit_inv (s : DB) (i : Nat) (form : Form) (h : TableInv s) :
    TableInv (edit_student_post s i form).2 := by
  cases hg : getById s i with
  | none =>
    have hres : (edit_student_post s i form).2 = s := by
      unfold edit_student_post
      rw [hg]
    rw [hres]
    exact h
  | some st =>
    have hsti : st.id = i := by simpa using List.find?_some hg
    cases hcc : s.any (fun r => r.email == form.email && r.id != i) with
    | true =>
      have hres : (edit_student_post s i form).2 = s := by
        unfold edit_student_post
        rw [hg]
        simp [hcc]
      rw [hres]
      exact h
    | false =>
      have hres : (edit_student_post s i form).2 =
          s.map (fun r => if r.id == i then (⟨st.id, form.name, form.email, form.age⟩ : Student) else r) := by
        unfold edit_student_post
        rw [hg]
        simp [hcc]
      rw [hsti] at hres
      rw [hres]
      refine ⟨?_, ?_⟩
      · rw [map_update_ids s i _ rfl]
        exact h.1
      · refine map_update_emails_nodup s i _ h.1 h.2 ?_
        intro r hr hri hre
        have hco : s.any (fun r => r.email == form.email && r.id != i) = true :=
          List.any_eq_true.mpr ⟨r, hr, by simp [hri]; simpa using hre⟩
        rw [hcc] at hco
        simp at hco

theorem del_inv (s : DB) (i : Nat) (h : TableInv s) :
    TableInv (delete_student s i).2 := by
  cases hg : getById s i with
  | none =>
    have hres : (delete_student s i).2 = s := by
      unfold delete_student
      rw [hg]
    rw [hres]
    exact h
  | some st =>
    have hres : (delete_student s i).2 =
        renumber 1 (sortById (s.filter (fun r => r.id != i))) := by
      unfold delete_student
      rw [hg]
    rw [hres]
    refine ⟨?_, ?_⟩
    · rw [renumber_map_id]
      exact List.nodup_range' _ _
    · rw [renumber_map_email]
      refine (List.Perm.nodup_iff
        ((sortById_perm (s.filter (fun r => r.id != i))).map (·.email))).mpr ?_
      exact h.2.sublist ((s.filter_sublist).map (·.email))

theorem applyOp_inv (s : DB) (op : Op) (h : TableInv s) :
    TableInv (applyOp s op) := by
  cases op with
  | add form => exact add_inv s form h
  | edit i form => exact edit_inv s i form h
  | del i => exact del_inv s i h

theorem foldl_applyOp_inv (ops : List Op) :
    ∀ s : DB, TableInv s → TableInv (ops.foldl applyOp s) := by
  induction ops with
  | nil => intro s h; exact h
  | cons op ops ih => intro s h; exact ih _ (applyOp_inv s op h)

/-- C5: in every state reachable from the empty store by any sequence of the
create, update and delete operations, the stored emails are pairwise
distinct. -/
theorem run_emails_nodup (ops : List Op) :
    ((run ops).map (·.email)).Nodup :=
  (foldl_applyOp_inv ops [] ⟨List.nodup_nil, List.nodup_nil⟩).2

/-- C8 counterexample: the add flow performs no non-emptiness check on the
name: submitting an empty name from the empty store succeeds and stores a
record whose name is the empty string, refuting the claim that every record
stored via the add flow has a non-empty name. -/
theorem add_empty_name_stored :
    add_student_post [] ⟨"", "a@x.com", "20"⟩ =
      (.redirectIndex, [⟨1, "", "a@x.com", "20"⟩]) ∧
    (add_student_post [] ⟨"", "a@x.com", "20"⟩).2.map (·.name) = [""] := by
  decide

/-- C8 (amended): the add and edit flows apply no validation to the name
field and store the submitted text verbatim, empty or not: for a fresh
email, add appends a record carrying exactly the submitted name, and the
edit flow overwrites the record with exactly the submitted name. -/
theorem flows_store_name_verbatim (s : DB) (form : Form) (i : Nat)
    (st : Student) (hfresh : ∀ r ∈ s, r.email ≠ form.email)
    (h : getById s i = some st) :
    (add_student_post s form).2.map (·.name) = s.map (·.name) ++ [form.name] ∧
    getById (edit_student_post s i form).2 i =
      some ⟨i, form.name, form.email, form.age⟩ := by
  have hsti : st.id = i := by simpa using List.find?_some h
  have hc : s.any (·.email == form.email) = false := by
    cases hb : s.any (·.email == form.email) with
    | false => rfl
    | true =>
      obtain ⟨r, hr, hre⟩ := List.any_eq_true.mp hb
      exact absurd (by simpa using hre) (hfresh r hr)
  have hcc : s.any (fun r => r.email == form.email && r.id != i) = false := by
    cases hb : s.any (fun r => r.email == form.email && r.id != i) with
    | false => rfl
    | true =>
      obtain ⟨r, hr, hre⟩ := List.any_eq_true.mp hb
      have := (Bool.and_eq_true _ _).mp hre
      exact absurd (by simpa using this.1) (hfresh r hr)
  constructor
  · have hres : (add_student_post s form).2 =
        s ++ [⟨nextId s, form.name, form.email, form.age⟩] := by
      unfold add_student_post
      simp [hc]
    rw [hres, List.map_append]
    rfl
  · have hres : edit_student_post s i form =
        (.redirectIndex, s.map (fun r => if r.id == i then (⟨st.id, form.name, form.email, form.age⟩ : Student) else r)) := by
      unfold edit_student_post
      rw [h]
      simp only [hcc]
      rfl
    rw [hsti] at hres
    rw [hres]
    exact getById_map_update s i _ st (by simp) h

/-- Witness for `flows_store_name_verbatim`: submitting the empty name to
both flows over the three-row sample store. -/
theorem flows_store_name_verbatim_witness :
    (∀ r ∈ sampleDB, r.email ≠ "d@x.com") ∧
    getById sampleDB 1 = some ⟨1, "Alice", "a@x.com", "20"⟩ ∧
    ((add_student_post sampleDB ⟨"", "d@x.com", "9"⟩).2.map (·.name) =
        sampleDB.map (·.name) ++ [""] ∧
      getById (edit_student_post sampleDB 1 ⟨"", "d@x.com", "9"⟩).2 1 =
        some ⟨1, "", "d@x.com", "9"⟩) :=
  ⟨by decide, rfl,
   flows_store_name_verbatim sampleDB ⟨"", "d@x.com", "9"⟩ 1
     ⟨1, "Alice", "a@x.com", "20"⟩ (by decide) rfl⟩

/-- C10: the add flow performs no integer conversion or validation on the
submitted age text: for any form with non-empty name and an email absent
from the store, creation succeeds and the new record's age is exactly the
submitted text, whether or not that text is a numeral. -/
theorem add_age_stored_verbatim (s : DB) (form : Form)
    (hname : form.name ≠ "") (hfresh : ∀ r ∈ s, r.email ≠ form.email) :
    add_student_post s form =
      (.redirectIndex, s ++ [⟨nextId s, form.name, form.email, form.age⟩]) ∧
    (add_student_post s form).2.map (·.age) = s.map (·.age) ++ [form.age] := by
  have hc : s.any (·.email == form.email) = false := by
    cases hb : s.any (·.email == form.email) with
    | false => rfl
    | true =>
      obtain ⟨r, hr, hre⟩ := List.any_eq_true.mp hb
      exact absurd (by simpa using hre) (hfresh r hr)
  have hres : add_student_post s form =
      (.redirectIndex, s ++ [⟨nextId s, form.name, form.email, form.age⟩]) := by
    unfold add_student_post
    simp [hc]
  refine ⟨hres, ?_⟩
  rw [hres]
  rw [List.map_append]
  rfl

/-- Witness for `add_age_stored_verbatim`: creating a record whose age text
is the non-numeral "abc". -/
theorem add_age_stored_verbatim_witness :
    (("Dora" : String) ≠ "") ∧
    (∀ r ∈ sampleDB, r.email ≠ "d@x.com") ∧
    (add_student_post sampleDB ⟨"Dora", "d@x.com", "abc"⟩ =
        (.redirectIndex,
          sampleDB ++ [⟨nextId sampleDB, "Dora", "d@x.com", "abc"⟩]) ∧
      (add_student_post sampleDB ⟨"Dora", "d@x.com", "abc"⟩).2.map (·.age) =
        sampleDB.map (·.age) ++ ["abc"]) :=
  ⟨by decide, by decide,
   add_age_stored_verbatim sampleDB ⟨"Dora", "d@x.com", "abc"⟩
     (by decide) (by decide)⟩
